import Mathlib

/-!
Verification of the structural-motif query builder and residue-selection
bookkeeping in `src/viewer/ui/strucmotif.tsx`.

The embedding models the logic of `SubmitControls.submitSearch`,
`SubmitControls.sortResidueIds`, `SubmitControls.updateResidues`, the map
population loop of `SubmitControls.add`, and the `Residue` class.

Modelling conventions:
  * A `StructureSelectionHistoryEntry` is modelled by `SelectionEntry`. Its
    stable object identity (used as `Map` key) is an explicit `id : Nat`.
    The structure-level model identifier `l.loci.structure.model.entry` is
    the field `modelEntry`. The locus `l.loci.elements` is a list of
    elements, each being its list of indices; each index resolves (via
    `StructureElement.Location.set` + `StructureProperties`) to an `Atom`
    carrying `label_asym_id`, `pdbx_struct_oper_list_ids`, `label_seq_id`
    and `label_comp_id`.
  * A JavaScript `Set` of strings is an insertion-ordered duplicate-free
    `List String`; `Set.add` appends when absent, `Set.delete` filters.
  * A JavaScript `Map<Entry, Residue>` is an insertion-ordered association
    list `List (Nat × Option Residue)`; the value type is `Option Residue`
    because `updateResidues` stores `this.state.residueMap.get(entry)!`,
    which is `undefined` when the key is absent.
  * The non-null assertion `residueMap.get(l)!` followed by a member access
    crashes at run time when the entry is untracked; likewise accessing
    `loci.elements[0]` of an empty locus. Such crashes are modelled by
    `Option`: `submitSearch` returns `none` exactly when the original code
    would throw before reaching a warning or a query.
  * `String.prototype.localeCompare` is modelled as lexicographic
    three-way comparison (the spec reads it as lexicographic).
-/

def MIN_MOTIF_SIZE : Nat := 3
def MAX_MOTIF_SIZE : Nat := 10

/-- The properties that one structure index resolves to. -/
structure Atom where
  label_asym_id : String
  struct_oper_list_ids : List String
  label_seq_id : Int
  label_comp_id : String
deriving DecidableEq

/-- One `StructureSelectionHistoryEntry`: stable identity, the model entry
id of its structure, and its locus (elements, each with its indices). -/
structure SelectionEntry where
  id : Nat
  modelEntry : String
  elements : List (List Atom)
deriving DecidableEq

/-- The entry `elements[0]` and the first index of that element, as dereferenced by
`StructureElement.Location.set(location, structure, e.unit,
e.unit.elements[OrderedSet.getAt(e.indices, 0)])`; `none` models the crash
on an empty locus. -/
def resolveLoc (e : SelectionEntry) : Option Atom :=
  match e.elements with
  | (a :: _) :: _ => some a
  | _ => none

/-- The `ResidueSelection` record of `strucmotif.tsx`. -/
structure ResidueSelection where
  label_asym_id : String
  struct_oper_id : String
  label_seq_id : Int
deriving DecidableEq

/-- The `Exchange` record of `strucmotif.tsx`. -/
structure Exchange where
  residue_id : ResidueSelection
  allowed : List String
deriving DecidableEq

/-- The exchange state of the `Residue` class: its `exchanges` set,
insertion-ordered. -/
structure Residue where
  exchanges : List String
deriving DecidableEq

/-- The `Residue` constructor seeds the exchange set with the native
residue type (`StructureProperties.atom.label_comp_id`) of the resolved
location. -/
def mkResidue (a : Atom) : Residue := ⟨[a.label_comp_id]⟩

/-- Embeds `Residue.hasExchange`. -/
def Residue.hasExchange (r : Residue) (v : String) : Bool := r.exchanges.contains v

/-- Embeds `Residue.toggleExchange`: delete when present, add when absent. -/
def Residue.toggleExchange (r : Residue) (v : String) : Residue :=
  if r.hasExchange v then ⟨r.exchanges.filter (fun w => w != v)⟩
  else ⟨r.exchanges ++ [v]⟩

/-- The component state `residueMap : Map<StructureSelectionHistoryEntry,
Residue>`, keyed by entry identity. -/
abbrev ResidueMap := List (Nat × Option Residue)

/-- The lookup `residueMap.get(entry)` collapsed to the value the surrounding code can
use: `none` for a missing key and for a stored `undefined` alike. -/
def getRes (M : ResidueMap) (k : Nat) : Option Residue :=
  (List.lookup k M).join

/-- The `residueId` record built inside the `submitSearch` loop:
`struct_oper_id` joins the operator ids with separator `x`, defaulting to
`1` when the list is empty. -/
def mkSelection (a : Atom) : ResidueSelection :=
  { label_asym_id := a.label_asym_id
    struct_oper_id :=
      if a.struct_oper_list_ids.length ≠ 0 then
        String.intercalate "x" a.struct_oper_list_ids
      else "1"
    label_seq_id := a.label_seq_id }

/-- Embeds `Set.add` on an insertion-ordered string set. -/
def addSet (s : List String) (x : String) : List String :=
  if x ∈ s then s else s ++ [x]

/-- The function `addSet` specialised to the model entry of a selection, as performed by
`pdbId.add(structure.model.entry)`. -/
def addModel (s : List String) (e : SelectionEntry) : List String :=
  addSet s e.modelEntry

/-- Three-way lexicographic string comparison standing in for
`String.prototype.localeCompare`: lexicographic on the character
sequence. -/
def strCmp (a b : String) : Int :=
  if a.data < b.data then -1 else if b.data < a.data then 1 else 0

/-- Embeds `SubmitControls.sortResidueIds`. -/
def sortResidueIds (a b : ResidueSelection) : Int :=
  if a.label_asym_id ≠ b.label_asym_id then
    strCmp a.label_asym_id b.label_asym_id
  else if a.struct_oper_id ≠ b.struct_oper_id then
    strCmp a.struct_oper_id b.struct_oper_id
  else if a.label_seq_id < b.label_seq_id then -1
  else if b.label_seq_id < a.label_seq_id then 1
  else 0

/-- The non-strict order induced by the comparator, as used by
`Array.prototype.sort`. The comparator is antisymmetric (it returns 0 only
on equal records), so the sorted array is the unique `RSle`-sorted
permutation of its input and any correct sort implements it; the embedding
uses insertion sort, which the kernel can evaluate. -/
def RSle (a b : ResidueSelection) : Prop := sortResidueIds a b ≤ 0

instance : DecidableRel RSle :=
  fun a b => inferInstanceAs (Decidable (sortResidueIds a b ≤ 0))

/-- The collection loop of `submitSearch` (lines 106-129): walks the
considered entries accumulating the `pdbId` set, the `residueIds` list and
the `exchanges` list; `none` models the run-time crash on an unresolvable
locus or an untracked entry (`residueMap.get(l)!`). -/
def collect (M : ResidueMap) :
    List SelectionEntry → List String → List ResidueSelection → List Exchange →
    Option (List String × List ResidueSelection × List Exchange)
  | [], pdbId, residueIds, exchanges => some (pdbId, residueIds, exchanges)
  | e :: rest, pdbId, residueIds, exchanges =>
    let pdbId2 := addModel pdbId e
    match resolveLoc e with
    | none => none
    | some a =>
      let residueId := mkSelection a
      match getRes M e.id with
      | none => none
      | some r =>
        collect M rest pdbId2 (residueIds ++ [residueId])
          (if r.exchanges.length > 0 then exchanges ++ [⟨residueId, r.exchanges⟩]
           else exchanges)

/-- The value assembled into the dispatched query: `data` is
`pdbId.values().next().value` (undefined on an empty set), `residue_ids`
the sorted selectors, `score_cutoff` 0, and the exchange list. -/
structure Query where
  data : Option String
  residue_ids : List ResidueSelection
  score_cutoff : Int
  exchanges : List Exchange
deriving DecidableEq

/-- Outcome of `submitSearch`: one of the three warnings, or a dispatched
query. -/
inductive SubmitResult where
  | multiModelWarning
  | tooManyWarning
  | nonPolymericWarning
  | submitted (q : Query)
deriving DecidableEq

/-- The first `min(MAX_MOTIF_SIZE, loci.length)` history entries, as
iterated by the `submitSearch` loop. -/
def considered (loci : List SelectionEntry) : List SelectionEntry :=
  loci.take (min MAX_MOTIF_SIZE loci.length)

/-- Embeds `SubmitControls.submitSearch` (lines 99-160). -/
def submitSearch (loci : List SelectionEntry) (M : ResidueMap) : Option SubmitResult :=
  match collect M (considered loci) [] [] [] with
  | none => none
  | some (pdbId, residueIds, exchanges) =>
    if pdbId.length > 1 then some SubmitResult.multiModelWarning
    else if residueIds.length > MAX_MOTIF_SIZE then some SubmitResult.tooManyWarning
    else if (residueIds.filter (fun v => v.label_seq_id == 0)).length > 0 then
      some SubmitResult.nonPolymericWarning
    else some (SubmitResult.submitted
      { data := pdbId.head?
        residue_ids := residueIds.insertionSort RSle
        score_cutoff := 0
        exchanges := exchanges })

/-- Embeds `SubmitControls.updateResidues` (lines 207-213): rebuilds the residue
map over the current history, storing `residueMap.get(entry)!` for each
entry (which is `undefined` when the key was absent). -/
def updateResidues (history : List SelectionEntry) (M : ResidueMap) : ResidueMap :=
  history.map (fun e => (e.id, getRes M e.id))

/-- One iteration of the map-population loop of `SubmitControls.add`
(lines 239-248): reuse the existing map slot when the key is present, else
construct a fresh `Residue` (crashing, hence `none`, on an unresolvable
locus). -/
def addStep (M : ResidueMap) (e : SelectionEntry) : Option ResidueMap :=
  if (List.lookup e.id M).isSome then some M
  else (resolveLoc e).map (fun a => M ++ [(e.id, some (mkResidue a))])

/-- The map-population loop of `SubmitControls.add` over the first
`Math.min(history.length, 10)` entries. -/
def addLoop (history : List SelectionEntry) (M : ResidueMap) : Option ResidueMap :=
  (history.take (min history.length 10)).foldlM addStep M

/-- The `disabled` flag of the Submit Search menu action (line 179). -/
def submitDisabled (historyLength : Nat) : Bool :=
  decide (historyLength < MIN_MOTIF_SIZE)

/-- The residue selector an entry resolves to, when its locus resolves. -/
def selOf (e : SelectionEntry) : Option ResidueSelection :=
  (resolveLoc e).map mkSelection

/-- The `label_seq_id` an entry resolves to, when its locus resolves. -/
def seqOf (e : SelectionEntry) : Option Int :=
  (resolveLoc e).map Atom.label_seq_id

/-- The exchange entry a pick contributes, if any: present exactly when the
tracked exchange set is non-empty, carrying the pick-derived selector and
the set in insertion order. -/
def exOf (M : ResidueMap) (e : SelectionEntry) : Option Exchange :=
  match resolveLoc e, getRes M e.id with
  | some a, some r =>
    if r.exchanges.length > 0 then some ⟨mkSelection a, r.exchanges⟩ else none
  | _, _ => none

/-- The ordering the spec requires of `residue_ids`: by `label_asym_id`
lexicographically, then `struct_oper_id` lexicographically, then
`label_seq_id` ascending. -/
def lexLE (a b : ResidueSelection) : Prop :=
  a.label_asym_id.data < b.label_asym_id.data ∨
    (a.label_asym_id = b.label_asym_id ∧
      (a.struct_oper_id.data < b.struct_oper_id.data ∨
        (a.struct_oper_id = b.struct_oper_id ∧ a.label_seq_id ≤ b.label_seq_id)))

/-- Concrete history used to witness claim C1 (the example of spec §8). -/
def lociC1 : List SelectionEntry :=
  [⟨1, "1ABC", [[⟨"A", ["1"], 5, "ALA"⟩]]⟩,
   ⟨2, "1ABC", [[⟨"A", ["1"], 2, "GLY"⟩]]⟩,
   ⟨3, "1ABC", [[⟨"B", ["1"], 1, "SER"⟩]]⟩]

/-- Concrete residue map used to witness claim C1. -/
def mapC1 : ResidueMap :=
  [(1, some ⟨["ALA"]⟩), (2, some ⟨["GLY"]⟩), (3, some ⟨["SER"]⟩)]

/-- Concrete mixed-model history used to witness claim C2; the second
entry even has a zero sequence id, showing the model check wins. -/
def lociC2 : List SelectionEntry :=
  [⟨1, "1ABC", [[⟨"A", ["1"], 5, "ALA"⟩]]⟩,
   ⟨2, "2XYZ", [[⟨"A", ["1"], 0, "GLY"⟩]]⟩]

/-- Concrete residue map used to witness claim C2. -/
def mapC2 : ResidueMap :=
  [(1, some ⟨["ALA"]⟩), (2, some ⟨["GLY"]⟩)]

/-- Concrete single-model history with a zero sequence id, witnessing
claim C3. -/
def lociC3 : List SelectionEntry :=
  [⟨1, "1ABC", [[⟨"A", ["1"], 5, "ALA"⟩]]⟩,
   ⟨2, "1ABC", [[⟨"A", ["1"], 0, "HOH"⟩]]⟩]

/-- Concrete residue map used to witness claim C3. -/
def mapC3 : ResidueMap :=
  [(1, some ⟨["ALA"]⟩), (2, some ⟨["HOH"]⟩)]

/-- Concrete history of 11 entries witnessing claim C4: the eleventh entry
is untracked, belongs to a different model and has a zero sequence id, yet
it is ignored. -/
def lociC4 : List SelectionEntry :=
  [⟨1, "1ABC", [[⟨"A", ["1"], 1, "ALA"⟩]]⟩,
   ⟨2, "1ABC", [[⟨"A", ["1"], 2, "ALA"⟩]]⟩,
   ⟨3, "1ABC", [[⟨"A", ["1"], 3, "ALA"⟩]]⟩,
   ⟨4, "1ABC", [[⟨"A", ["1"], 4, "ALA"⟩]]⟩,
   ⟨5, "1ABC", [[⟨"A", ["1"], 5, "ALA"⟩]]⟩,
   ⟨6, "1ABC", [[⟨"B", ["1"], 1, "GLY"⟩]]⟩,
   ⟨7, "1ABC", [[⟨"B", ["1"], 2, "GLY"⟩]]⟩,
   ⟨8, "1ABC", [[⟨"B", ["1"], 3, "GLY"⟩]]⟩,
   ⟨9, "1ABC", [[⟨"B", ["1"], 4, "GLY"⟩]]⟩,
   ⟨10, "1ABC", [[⟨"B", ["1"], 5, "GLY"⟩]]⟩,
   ⟨11, "9ZZZ", [[⟨"Z", [], 0, "HOH"⟩]]⟩]

/-- Concrete residue map used to witness claim C4 (ten tracked picks). -/
def mapC4 : ResidueMap :=
  [(1, some ⟨["ALA"]⟩), (2, some ⟨["ALA"]⟩), (3, some ⟨["ALA"]⟩),
   (4, some ⟨["ALA"]⟩), (5, some ⟨["ALA"]⟩), (6, some ⟨["GLY"]⟩),
   (7, some ⟨["GLY"]⟩), (8, some ⟨["GLY"]⟩), (9, some ⟨["GLY"]⟩),
   (10, some ⟨["GLY"]⟩)]

/-- Concrete history witnessing claim C7: the first pick carries two
allowed exchanges, the second has an emptied exchange set. -/
def lociC7 : List SelectionEntry :=
  [⟨1, "1ABC", [[⟨"A", ["1"], 5, "ALA"⟩]]⟩,
   ⟨2, "1ABC", [[⟨"B", ["1"], 7, "GLY"⟩]]⟩]

/-- Concrete residue map used to witness claim C7. -/
def mapC7 : ResidueMap :=
  [(1, some ⟨["ALA", "HIS"]⟩), (2, some ⟨[]⟩)]

/-- Concrete history used to witness claim C6 (amended). -/
def histC6 : List SelectionEntry :=
  [⟨1, "1ABC", [[⟨"A", ["1"], 5, "ALA"⟩]]⟩, ⟨2, "1ABC", [[⟨"B", ["1"], 6, "GLY"⟩]]⟩]

/-- Concrete residue map used to witness claim C6 (amended): the first
history entry is tracked, the second is not; key 9 is stale. -/
def mapC6 : ResidueMap :=
  [(1, some ⟨["ALA", "HIS"]⟩), (9, some ⟨["SER"]⟩)]

/-- Concrete entry used to witness claim C9. -/
def entC9 : SelectionEntry := ⟨5, "1ABC", [[⟨"A", ["1"], 4, "ALA"⟩]]⟩

/-- Concrete residue map used to witness claim C9: the old PickedResidue
for identity 5 carries a tampered exchange set that must not be
resurrected. -/
def mapC9 : ResidueMap := [(5, some ⟨["XXX", "YYY"]⟩)]

theorem addSet_mem (s : List String) (x y : String) :
    y ∈ addSet s x ↔ y ∈ s ∨ y = x := by
  unfold addSet
  split
  · constructor
    · exact Or.inl
    · rintro (hy | rfl)
      · exact hy
      · assumption
  · simp

theorem mem_foldl_addModel (l : List SelectionEntry) (s : List String) (x : String) :
    x ∈ l.foldl addModel s ↔ x ∈ s ∨ ∃ e ∈ l, e.modelEntry = x := by
  induction l generalizing s with
  | nil => simp
  | cons e t ih =>
    rw [List.foldl_cons, ih]
    unfold addModel
    rw [addSet_mem]
    constructor
    · rintro ((hs | rfl) | ⟨f, hf, rfl⟩)
      · exact Or.inl hs
      · exact Or.inr ⟨e, List.mem_cons_self e t, rfl⟩
      · exact Or.inr ⟨f, List.mem_cons_of_mem _ hf, rfl⟩
    · rintro (hs | ⟨f, hf, rfl⟩)
      · exact Or.inl (Or.inl hs)
      · rcases List.mem_cons.mp hf with rfl | hft
        · exact Or.inl (Or.inr rfl)
        · exact Or.inr ⟨f, hft, rfl⟩

theorem foldl_addModel_const (l : List SelectionEntry) (m0 : String)
    (h : ∀ e ∈ l, e.modelEntry = m0) : l.foldl addModel [m0] = [m0] := by
  induction l with
  | nil => rfl
  | cons e t ih =>
    have he : e.modelEntry = m0 := h e (List.mem_cons_self e t)
    have hstep : addModel [m0] e = [m0] := by
      simp [addModel, addSet, he]
    rw [List.foldl_cons, hstep]
    exact ih (fun x hx => h x (List.mem_cons_of_mem _ hx))

theorem foldl_addModel_of_ne_nil (l : List SelectionEntry) (m0 : String) (hne : l ≠ [])
    (h : ∀ e ∈ l, e.modelEntry = m0) : l.foldl addModel [] = [m0] := by
  cases l with
  | nil => exact absurd rfl hne
  | cons e t =>
    have he : e.modelEntry = m0 := h e (List.mem_cons_self e t)
    have hstep : addModel [] e = [m0] := by simp [addModel, addSet, he]
    rw [List.foldl_cons, hstep]
    exact foldl_addModel_const t m0 (fun x hx => h x (List.mem_cons_of_mem _ hx))

theorem one_lt_length_of_two_mem {l : List String} {a b : String}
    (ha : a ∈ l) (hb : b ∈ l) (hab : a ≠ b) : 1 < l.length := by
  match l with
  | [] => simp at ha
  | [x] =>
    simp at ha hb
    exact absurd (ha.trans hb.symm) hab
  | x :: y :: t =>
    simp only [List.length_cons]
    omega

theorem length_filterMap_of_isSome {α β : Type} (f : α → Option β) (l : List α)
    (h : ∀ e ∈ l, (f e).isSome) : (l.filterMap f).length = l.length := by
  induction l with
  | nil => rfl
  | cons e t ih =>
    obtain ⟨b, hb⟩ := Option.isSome_iff_exists.mp (h e (List.mem_cons_self e t))
    rw [List.filterMap_cons, hb]
    simp [ih (fun x hx => h x (List.mem_cons_of_mem _ hx))]

theorem collect_eq (M : ResidueMap) (l : List SelectionEntry) (pdb : List String)
    (rids : List ResidueSelection) (exs : List Exchange)
    (hres : ∀ e ∈ l, (resolveLoc e).isSome)
    (htr : ∀ e ∈ l, (getRes M e.id).isSome) :
    collect M l pdb rids exs =
      some (l.foldl addModel pdb, rids ++ l.filterMap selOf,
        exs ++ l.filterMap (exOf M)) := by
  induction l generalizing pdb rids exs with
  | nil => simp [collect]
  | cons e t ih =>
    obtain ⟨a, ha⟩ := Option.isSome_iff_exists.mp (hres e (List.mem_cons_self e t))
    obtain ⟨r, hr⟩ := Option.isSome_iff_exists.mp (htr e (List.mem_cons_self e t))
    have hres2 : ∀ x ∈ t, (resolveLoc x).isSome :=
      fun x hx => hres x (List.mem_cons_of_mem _ hx)
    have htr2 : ∀ x ∈ t, (getRes M x.id).isSome :=
      fun x hx => htr x (List.mem_cons_of_mem _ hx)
    have hsel : selOf e = some (mkSelection a) := by simp [selOf, ha]
    have hex : exOf M e =
        (if r.exchanges.length > 0 then some ⟨mkSelection a, r.exchanges⟩ else none) := by
      simp [exOf, ha, hr]
    simp only [collect, ha, hr]
    rw [ih _ _ _ hres2 htr2, List.foldl_cons,
      List.filterMap_cons, List.filterMap_cons, hsel, hex]
    by_cases hlen : r.exchanges.length > 0
    · simp [hlen]
    · simp [hlen]

theorem collect_length (M : ResidueMap) (l : List SelectionEntry) (pdb : List String)
    (rids : List ResidueSelection) (exs : List Exchange)
    (p : List String) (r : List ResidueSelection) (x : List Exchange)
    (h : collect M l pdb rids exs = some (p, r, x)) :
    r.length = rids.length + l.length := by
  induction l generalizing pdb rids exs with
  | nil =>
    rw [collect] at h
    injection h with h
    have h2 : rids = r := congrArg (fun q => q.2.1) h
    subst h2
    simp
  | cons e t ih =>
    rw [collect] at h
    cases hres : resolveLoc e with
    | none => rw [hres] at h; exact absurd h (by simp)
    | some a =>
      rw [hres] at h
      cases hr : getRes M e.id with
      | none => rw [hr] at h; exact absurd h (by simp)
      | some rr =>
        rw [hr] at h
        have hlen := ih _ _ _ h
        simp only [List.length_append, List.length_cons, List.length_nil] at hlen ⊢
        omega

theorem considered_length_le (loci : List SelectionEntry) :
    (considered loci).length ≤ MAX_MOTIF_SIZE := by
  unfold considered
  rw [List.length_take]
  omega

theorem considered_of_le (loci : List SelectionEntry) (h : loci.length ≤ MAX_MOTIF_SIZE) :
    considered loci = loci := by
  unfold considered
  have hm : min MAX_MOTIF_SIZE loci.length = loci.length := by omega
  rw [hm, List.take_length]

theorem considered_of_gt (loci : List SelectionEntry) (h : MAX_MOTIF_SIZE < loci.length) :
    considered loci = loci.take MAX_MOTIF_SIZE := by
  unfold considered
  have hm : min MAX_MOTIF_SIZE loci.length = MAX_MOTIF_SIZE := by omega
  rw [hm]

theorem sortResidueIds_nonpos_iff (a b : ResidueSelection) :
    sortResidueIds a b ≤ 0 ↔ lexLE a b := by
  unfold sortResidueIds strCmp lexLE
  by_cases h1 : a.label_asym_id = b.label_asym_id
  · rw [if_neg (by simp [h1])]
    by_cases h2 : a.struct_oper_id = b.struct_oper_id
    · rw [if_neg (by simp [h2])]
      simp only [h1, h2, lt_irrefl, false_or, true_and]
      split_ifs with hlt hgt <;> omega
    · rw [if_pos h2]
      have hdata : a.label_asym_id.data = b.label_asym_id.data := by rw [h1]
      simp only [h1, hdata, lt_irrefl, false_or, true_and]
      rcases lt_trichotomy a.struct_oper_id.data b.struct_oper_id.data with h | h | h
      · rw [if_pos h]
        simp only [h, true_or, iff_true]
        omega
      · exact absurd (String.ext h) h2
      · rw [if_neg (lt_asymm h), if_pos h]
        constructor
        · intro hc
          omega
        · rintro (hc | ⟨hc, -⟩)
          · exact absurd hc (lt_asymm h)
          · exact absurd hc h2
  · rw [if_pos h1]
    rcases lt_trichotomy a.label_asym_id.data b.label_asym_id.data with h | h | h
    · rw [if_pos h]
      simp only [h, true_or, iff_true]
      omega
    · exact absurd (String.ext h) h1
    · rw [if_neg (lt_asymm h), if_pos h]
      constructor
      · intro hc
        omega
      · rintro (hc | ⟨hc, -⟩)
        · exact absurd hc (lt_asymm h)
        · exact absurd hc h1

theorem lexLE_total (a b : ResidueSelection) : lexLE a b ∨ lexLE b a := by
  unfold lexLE
  rcases lt_trichotomy a.label_asym_id.data b.label_asym_id.data with h1 | h1 | h1
  · exact Or.inl (Or.inl h1)
  · have e1 : a.label_asym_id = b.label_asym_id := String.ext h1
    rcases lt_trichotomy a.struct_oper_id.data b.struct_oper_id.data with h2 | h2 | h2
    · exact Or.inl (Or.inr ⟨e1, Or.inl h2⟩)
    · have e2 : a.struct_oper_id = b.struct_oper_id := String.ext h2
      rcases le_total a.label_seq_id b.label_seq_id with h3 | h3
      · exact Or.inl (Or.inr ⟨e1, Or.inr ⟨e2, h3⟩⟩)
      · exact Or.inr (Or.inr ⟨e1.symm, Or.inr ⟨e2.symm, h3⟩⟩)
    · exact Or.inr (Or.inr ⟨e1.symm, Or.inl h2⟩)
  · exact Or.inr (Or.inl h1)

theorem lexLE_trans {a b c : ResidueSelection} (h1 : lexLE a b) (h2 : lexLE b c) :
    lexLE a c := by
  unfold lexLE at h1 h2 ⊢
  rcases h1 with h1 | ⟨e1, h1⟩
  · rcases h2 with h2 | ⟨e2, h2⟩
    · exact Or.inl (lt_trans h1 h2)
    · rw [e2] at h1
      exact Or.inl h1
  · rcases h2 with h2 | ⟨e2, h2⟩
    · rw [e1]
      exact Or.inl h2
    · refine Or.inr ⟨e1.trans e2, ?_⟩
      rcases h1 with h1 | ⟨f1, h1⟩
      · rcases h2 with h2 | ⟨f2, h2⟩
        · exact Or.inl (lt_trans h1 h2)
        · rw [f2] at h1
          exact Or.inl h1
      · rcases h2 with h2 | ⟨f2, h2⟩
        · rw [← f1] at h2
          exact Or.inl h2
        · exact Or.inr ⟨f1.trans f2, le_trans h1 h2⟩

theorem sorted_lexLE_insertionSort (l : List ResidueSelection) :
    List.Sorted lexLE (l.insertionSort RSle) := by
  haveI : IsTotal ResidueSelection RSle :=
    ⟨fun a b => by
      rcases lexLE_total a b with h | h
      · exact Or.inl ((sortResidueIds_nonpos_iff a b).mpr h)
      · exact Or.inr ((sortResidueIds_nonpos_iff b a).mpr h)⟩
  haveI : IsTrans ResidueSelection RSle :=
    ⟨fun a b c h1 h2 => (sortResidueIds_nonpos_iff a c).mpr
      (lexLE_trans ((sortResidueIds_nonpos_iff a b).mp h1)
        ((sortResidueIds_nonpos_iff b c).mp h2))⟩
  exact (List.sorted_insertionSort RSle l).imp
    (fun h => (sortResidueIds_nonpos_iff _ _).mp h)

theorem filter_seq_eq_nil (rids : List ResidueSelection)
    (h : ∀ v ∈ rids, v.label_seq_id ≠ 0) :
    rids.filter (fun v => v.label_seq_id == 0) = [] := by
  rw [List.filter_eq_nil_iff]
  intro v hv
  simp [h v hv]

theorem filter_seq_pos (rids : List ResidueSelection) (v : ResidueSelection)
    (hv : v ∈ rids) (h0 : v.label_seq_id = 0) :
    0 < (rids.filter (fun u => u.label_seq_id == 0)).length := by
  have hm : v ∈ rids.filter (fun u => u.label_seq_id == 0) := by
    rw [List.mem_filter]
    exact ⟨hv, by simp [h0]⟩
  exact List.length_pos.mpr (List.ne_nil_of_mem hm)

theorem mem_filterMap_selOf_seq (l : List SelectionEntry)
    (h : ∀ e ∈ l, seqOf e ≠ some 0) :
    ∀ v ∈ l.filterMap selOf, v.label_seq_id ≠ 0 := by
  intro v hv
  obtain ⟨e, he, hsel⟩ := List.mem_filterMap.mp hv
  unfold selOf at hsel
  cases hres : resolveLoc e with
  | none =>
    rw [hres] at hsel
    exact Option.noConfusion hsel
  | some a =>
    rw [hres] at hsel
    simp at hsel
    subst hsel
    intro h0
    apply h e he
    simp [seqOf, hres]
    simpa [mkSelection] using h0

theorem foldl_addModel_length_le_one (l : List SelectionEntry)
    (h : ∀ e1 ∈ l, ∀ e2 ∈ l, e1.modelEntry = e2.modelEntry) :
    (l.foldl addModel []).length ≤ 1 := by
  cases l with
  | nil => simp
  | cons e t =>
    have hall : ∀ x ∈ e :: t, x.modelEntry = e.modelEntry :=
      fun x hx => h x hx e (List.mem_cons_self e t)
    rw [foldl_addModel_of_ne_nil (e :: t) e.modelEntry (by simp) hall]
    simp

/-- When every considered entry resolves, is tracked, shares one model and
has a non-zero sequence id, `submitSearch` reaches the success branch; the
query is assembled from the considered entries. -/
theorem submitSearch_success (loci : List SelectionEntry) (M : ResidueMap)
    (hres : ∀ e ∈ considered loci, (resolveLoc e).isSome)
    (htr : ∀ e ∈ considered loci, (getRes M e.id).isSome)
    (hmodel : ∀ e1 ∈ considered loci, ∀ e2 ∈ considered loci,
      e1.modelEntry = e2.modelEntry)
    (hseq : ∀ e ∈ considered loci, seqOf e ≠ some 0) :
    submitSearch loci M = some (SubmitResult.submitted
      { data := ((considered loci).foldl addModel []).head?
        residue_ids := ((considered loci).filterMap selOf).insertionSort RSle
        score_cutoff := 0
        exchanges := (considered loci).filterMap (exOf M) }) := by
  unfold submitSearch
  rw [collect_eq M (considered loci) [] [] [] hres htr]
  have hpdb : ((considered loci).foldl addModel []).length ≤ 1 :=
    foldl_addModel_length_le_one _ hmodel
  have hrlen : ((considered loci).filterMap selOf).length ≤ MAX_MOTIF_SIZE :=
    le_trans (List.length_filterMap_le _ _) (considered_length_le loci)
  have hfil : ((considered loci).filterMap selOf).filter
      (fun v => v.label_seq_id == 0) = [] :=
    filter_seq_eq_nil _ (mem_filterMap_selOf_seq _ hseq)
  rw [List.nil_append, List.nil_append]
  dsimp only
  rw [if_neg (by omega), if_neg (by omega), if_neg (by rw [hfil]; simp)]

theorem selOf_isSome_of_resolve {loci : List SelectionEntry}
    (hres : ∀ e ∈ loci, (resolveLoc e).isSome) :
    ∀ e ∈ loci, (selOf e).isSome := by
  intro e he
  obtain ⟨a, ha⟩ := Option.isSome_iff_exists.mp (hres e he)
  simp [selOf, ha]

/-- Claim C1: for every selection history of length between 3 and 10 in
which every considered entry resolves to the same model entry id, every
considered entry has label_seq_id different from 0, and every considered
entry has a tracked PickedResidue, submitSearch succeeds and the assembled
query's residue_ids list contains exactly one ResidueSelection per history
entry, sorted by label_asym_id (lexicographic), then struct_oper_id
(lexicographic), then label_seq_id (numeric ascending). -/
theorem claim_C1 (loci : List SelectionEntry) (M : ResidueMap)
    (_hlen3 : MIN_MOTIF_SIZE ≤ loci.length) (hlen10 : loci.length ≤ MAX_MOTIF_SIZE)
    (hres : ∀ e ∈ loci, (resolveLoc e).isSome)
    (htr : ∀ e ∈ loci, (getRes M e.id).isSome)
    (hmodel : ∀ e1 ∈ loci, ∀ e2 ∈ loci, e1.modelEntry = e2.modelEntry)
    (hseq : ∀ e ∈ loci, seqOf e ≠ some 0) :
    ∃ q : Query, submitSearch loci M = some (SubmitResult.submitted q) ∧
      q.residue_ids.length = loci.length ∧
      q.residue_ids.Perm (loci.filterMap selOf) ∧
      List.Sorted lexLE q.residue_ids := by
  have hc : considered loci = loci := considered_of_le loci hlen10
  have hres2 : ∀ e ∈ considered loci, (resolveLoc e).isSome := by rw [hc]; exact hres
  have htr2 : ∀ e ∈ considered loci, (getRes M e.id).isSome := by rw [hc]; exact htr
  have hmodel2 : ∀ e1 ∈ considered loci, ∀ e2 ∈ considered loci,
      e1.modelEntry = e2.modelEntry := by rw [hc]; exact hmodel
  have hseq2 : ∀ e ∈ considered loci, seqOf e ≠ some 0 := by rw [hc]; exact hseq
  have hq := submitSearch_success loci M hres2 htr2 hmodel2 hseq2
  rw [hc] at hq
  have hperm : (List.insertionSort RSle (loci.filterMap selOf)).Perm
      (loci.filterMap selOf) := List.perm_insertionSort RSle _
  refine ⟨_, hq, ?_, hperm, sorted_lexLE_insertionSort _⟩
  rw [hperm.length_eq]
  exact length_filterMap_of_isSome selOf loci (selOf_isSome_of_resolve hres)

/-- Claim C2: whenever the considered entries (all of them resolving and
tracked, so that the collection loop completes) span two or more distinct
model entry ids, submitSearch reports the multi-model warning and produces
no query, regardless of sequence ids or any other validity; the model check
precedes the size and seq_id checks. -/
theorem claim_C2 (loci : List SelectionEntry) (M : ResidueMap)
    (hres : ∀ e ∈ considered loci, (resolveLoc e).isSome)
    (htr : ∀ e ∈ considered loci, (getRes M e.id).isSome)
    (hdist : ∃ e1 ∈ considered loci, ∃ e2 ∈ considered loci,
      e1.modelEntry ≠ e2.modelEntry) :
    submitSearch loci M = some SubmitResult.multiModelWarning := by
  obtain ⟨e1, h1, e2, h2, hne⟩ := hdist
  unfold submitSearch
  rw [collect_eq M (considered loci) [] [] [] hres htr]
  dsimp only
  have hm1 : e1.modelEntry ∈ (considered loci).foldl addModel [] :=
    (mem_foldl_addModel _ _ _).mpr (Or.inr ⟨e1, h1, rfl⟩)
  have hm2 : e2.modelEntry ∈ (considered loci).foldl addModel [] :=
    (mem_foldl_addModel _ _ _).mpr (Or.inr ⟨e2, h2, rfl⟩)
  rw [if_pos (one_lt_length_of_two_mem hm1 hm2 hne)]

/-- Claim C3: when all considered entries resolve, are tracked and share a
single model entry id, but some considered entry has label_seq_id 0,
submitSearch reports the non-polymeric warning and produces no query; the
seq_id check runs after the multi-model check (claim_C2 shows the
multi-model warning wins when both conditions hold). -/
theorem claim_C3 (loci : List SelectionEntry) (M : ResidueMap)
    (hres : ∀ e ∈ considered loci, (resolveLoc e).isSome)
    (htr : ∀ e ∈ considered loci, (getRes M e.id).isSome)
    (hmodel : ∀ e1 ∈ considered loci, ∀ e2 ∈ considered loci,
      e1.modelEntry = e2.modelEntry)
    (hzero : ∃ e ∈ considered loci, seqOf e = some 0) :
    submitSearch loci M = some SubmitResult.nonPolymericWarning := by
  obtain ⟨e, he, h0⟩ := hzero
  unfold submitSearch
  rw [collect_eq M (considered loci) [] [] [] hres htr]
  rw [List.nil_append, List.nil_append]
  dsimp only
  have hpdb : ((considered loci).foldl addModel []).length ≤ 1 :=
    foldl_addModel_length_le_one _ hmodel
  have hrlen : ((considered loci).filterMap selOf).length ≤ MAX_MOTIF_SIZE :=
    le_trans (List.length_filterMap_le _ _) (considered_length_le loci)
  obtain ⟨a, ha⟩ := Option.isSome_iff_exists.mp (hres e he)
  have haseq : a.label_seq_id = 0 := by
    rw [seqOf, ha] at h0
    simpa using h0
  have hmem : mkSelection a ∈ (considered loci).filterMap selOf :=
    List.mem_filterMap.mpr ⟨e, he, by simp [selOf, ha]⟩
  have hpos : 0 < (((considered loci).filterMap selOf).filter
      (fun u => u.label_seq_id == 0)).length :=
    filter_seq_pos _ (mkSelection a) hmem (by simpa [mkSelection] using haseq)
  rw [if_neg (by omega), if_neg (by omega), if_pos (by omega)]

/-- Claim C4: for a history longer than 10, exactly the first 10 entries
in history order are considered; later entries (however invalid) are
ignored rather than causing an error, so a valid single-model prefix
yields a query with exactly 10 residue selectors. -/
theorem claim_C4 (loci : List SelectionEntry) (M : ResidueMap)
    (hlen : MAX_MOTIF_SIZE < loci.length)
    (hres : ∀ e ∈ loci.take MAX_MOTIF_SIZE, (resolveLoc e).isSome)
    (htr : ∀ e ∈ loci.take MAX_MOTIF_SIZE, (getRes M e.id).isSome)
    (hmodel : ∀ e1 ∈ loci.take MAX_MOTIF_SIZE, ∀ e2 ∈ loci.take MAX_MOTIF_SIZE,
      e1.modelEntry = e2.modelEntry)
    (hseq : ∀ e ∈ loci.take MAX_MOTIF_SIZE, seqOf e ≠ some 0) :
    considered loci = loci.take MAX_MOTIF_SIZE ∧
    ∃ q : Query, submitSearch loci M = some (SubmitResult.submitted q) ∧
      q.residue_ids.length = MAX_MOTIF_SIZE ∧
      q.residue_ids.Perm ((loci.take MAX_MOTIF_SIZE).filterMap selOf) := by
  have hc : considered loci = loci.take MAX_MOTIF_SIZE := considered_of_gt loci hlen
  refine ⟨hc, ?_⟩
  have hres2 : ∀ e ∈ considered loci, (resolveLoc e).isSome := by rw [hc]; exact hres
  have htr2 : ∀ e ∈ considered loci, (getRes M e.id).isSome := by rw [hc]; exact htr
  have hmodel2 : ∀ e1 ∈ considered loci, ∀ e2 ∈ considered loci,
      e1.modelEntry = e2.modelEntry := by rw [hc]; exact hmodel
  have hseq2 : ∀ e ∈ considered loci, seqOf e ≠ some 0 := by rw [hc]; exact hseq
  have hq := submitSearch_success loci M hres2 htr2 hmodel2 hseq2
  rw [hc] at hq
  have hperm : (List.insertionSort RSle ((loci.take MAX_MOTIF_SIZE).filterMap selOf)).Perm
      ((loci.take MAX_MOTIF_SIZE).filterMap selOf) := List.perm_insertionSort RSle _
  refine ⟨_, hq, ?_, hperm⟩
  rw [hperm.length_eq,
    length_filterMap_of_isSome selOf _ (selOf_isSome_of_resolve hres),
    List.length_take]
  omega

/-- Claim C5: the TooManyResiduesError branch of submitSearch is
unreachable for every input, because the collection loop already caps the
considered entries at min(10, history length). -/
theorem claim_C5 (loci : List SelectionEntry) (M : ResidueMap) :
    submitSearch loci M ≠ some SubmitResult.tooManyWarning := by
  unfold submitSearch
  cases hcol : collect M (considered loci) [] [] [] with
  | none => simp
  | some t =>
    obtain ⟨p, r, x⟩ := t
    have hr : r.length = ([] : List ResidueSelection).length + (considered loci).length :=
      collect_length M (considered loci) [] [] [] p r x hcol
    have hr2 : r.length ≤ MAX_MOTIF_SIZE := by
      rw [hr, List.length_nil, Nat.zero_add]
      exact considered_length_le loci
    dsimp only
    split_ifs with h1 h2 h3
    · simp
    · omega
    · simp
    · simp

/-- Claim C7: in a successful submitSearch, an Exchange entry is emitted
for exactly those considered picks whose exchange set is non-empty (picks
with an empty set are omitted, not rejected); each emitted Exchange uses
the ResidueSelection derived from the pick before sorting, and its allowed
list is the pick's exchange set in insertion-enumeration order with no
further sorting — exactly `exOf`, mapped over the considered entries. -/
theorem claim_C7 (loci : List SelectionEntry) (M : ResidueMap)
    (hres : ∀ e ∈ considered loci, (resolveLoc e).isSome)
    (htr : ∀ e ∈ considered loci, (getRes M e.id).isSome)
    (hmodel : ∀ e1 ∈ considered loci, ∀ e2 ∈ considered loci,
      e1.modelEntry = e2.modelEntry)
    (hseq : ∀ e ∈ considered loci, seqOf e ≠ some 0) :
    ∃ q : Query, submitSearch loci M = some (SubmitResult.submitted q) ∧
      q.exchanges = (considered loci).filterMap (exOf M) ∧
      ∀ x ∈ q.exchanges, x.allowed ≠ [] := by
  refine ⟨_, submitSearch_success loci M hres htr hmodel hseq, rfl, ?_⟩
  intro x hx
  obtain ⟨e, he, hex⟩ := List.mem_filterMap.mp hx
  unfold exOf at hex
  cases hresolve : resolveLoc e with
  | none =>
    rw [hresolve] at hex
    exact Option.noConfusion hex
  | some a =>
    rw [hresolve] at hex
    cases hget : getRes M e.id with
    | none =>
      rw [hget] at hex
      exact Option.noConfusion hex
    | some r =>
      rw [hget] at hex
      dsimp only at hex
      by_cases hlen : r.exchanges.length > 0
      · rw [if_pos hlen] at hex
        injection hex with hex
        subst hex
        intro hnil
        dsimp only at hnil
        rw [hnil] at hlen
        simp at hlen
      · rw [if_neg hlen] at hex
        exact Option.noConfusion hex

/-- Claim C10: submitSearch performs no minimum-size validation: whenever
the considered entries pass the three checks, a query is assembled and
dispatched, with no constraint relating the history length to
MIN_MOTIF_SIZE — including the empty history, whose query carries the
undefined data value; the minimum-size constraint exists only in the
disabled flag of the submit menu action, computed outside submitSearch. -/
theorem claim_C10 (loci : List SelectionEntry) (M : ResidueMap)
    (hres : ∀ e ∈ considered loci, (resolveLoc e).isSome)
    (htr : ∀ e ∈ considered loci, (getRes M e.id).isSome)
    (hmodel : ∀ e1 ∈ considered loci, ∀ e2 ∈ considered loci,
      e1.modelEntry = e2.modelEntry)
    (hseq : ∀ e ∈ considered loci, seqOf e ≠ some 0) :
    (∃ q : Query, submitSearch loci M = some (SubmitResult.submitted q) ∧
      (loci = [] → q.data = none ∧ q.residue_ids = [])) ∧
    (submitDisabled loci.length = true ↔ loci.length < MIN_MOTIF_SIZE) := by
  constructor
  · refine ⟨_, submitSearch_success loci M hres htr hmodel hseq, ?_⟩
    rintro rfl
    exact ⟨rfl, rfl⟩
  · simp [submitDisabled]

theorem updateResidues_cons (x : SelectionEntry) (t : List SelectionEntry)
    (M : ResidueMap) :
    updateResidues (x :: t) M = (x.id, getRes M x.id) :: updateResidues t M := rfl

theorem lookup_updateResidues (history : List SelectionEntry) (M : ResidueMap)
    (e : SelectionEntry) (he : e ∈ history)
    (hnodup : (history.map SelectionEntry.id).Nodup) :
    List.lookup e.id (updateResidues history M) = some (getRes M e.id) := by
  induction history with
  | nil => simp at he
  | cons x t ih =>
    rw [List.map_cons, List.nodup_cons] at hnodup
    rw [updateResidues_cons, List.lookup_cons]
    rcases List.mem_cons.mp he with rfl | het
    · simp
    · have hne : e.id ≠ x.id := by
        intro hid
        exact hnodup.1 (List.mem_map.mpr ⟨e, het, hid⟩)
      have hbeq : (e.id == x.id) = false := by simp [hne]
      rw [hbeq]
      exact ih het hnodup.2

theorem lookup_updateResidues_not_mem (history : List SelectionEntry) (M : ResidueMap)
    (k : Nat) (hk : k ∉ history.map SelectionEntry.id) :
    List.lookup k (updateResidues history M) = none := by
  induction history with
  | nil => rfl
  | cons x t ih =>
    rw [List.map_cons, List.mem_cons] at hk
    rw [updateResidues_cons, List.lookup_cons]
    have hbeq : (k == x.id) = false := by
      simp only [beq_eq_false_iff_ne, ne_eq]
      exact fun h => hk (Or.inl h)
    rw [hbeq]
    exact ih (fun h => hk (Or.inr h))

/-- Claim C6 counterexample: `updateResidues` over a history containing an
entry absent from the old map stores the undefined lookup result for that
entry; it does not construct a PickedResidue seeded with the entry's
native residue type, contrary to the claim. -/
theorem claim_C6_counterexample :
    List.lookup (7 : Nat)
      (updateResidues [⟨7, "1ABC", [[⟨"A", ["1"], 5, "ALA"⟩]]⟩] []) = some none ∧
    List.lookup (7 : Nat)
      (updateResidues [⟨7, "1ABC", [[⟨"A", ["1"], 5, "ALA"⟩]]⟩] []) ≠
      some (some (mkResidue ⟨"A", ["1"], 5, "ALA"⟩)) := by decide

/-- Claim C6 (amended): for every history with pairwise distinct entry
identities, updateResidues yields a map whose key list is exactly the
history's entry identities; every entry whose identity was mapped to an
existing PickedResidue keeps that PickedResidue; and every entry whose
identity was absent from the old map is mapped to the undefined value — no
new PickedResidue is constructed there (fresh seeded construction happens
only in the add render loop, modelled by addLoop, for keys absent from the
map). -/
theorem claim_C6_amended (history : List SelectionEntry) (M : ResidueMap)
    (hnodup : (history.map SelectionEntry.id).Nodup) :
    (updateResidues history M).map Prod.fst = history.map SelectionEntry.id ∧
    (∀ e ∈ history, ∀ r : Residue, List.lookup e.id M = some (some r) →
      List.lookup e.id (updateResidues history M) = some (some r)) ∧
    (∀ e ∈ history, List.lookup e.id M = none →
      List.lookup e.id (updateResidues history M) = some none) := by
  refine ⟨?_, ?_, ?_⟩
  · rw [updateResidues, List.map_map]
    rfl
  · intro e he r hr
    rw [lookup_updateResidues history M e he hnodup]
    simp [getRes, hr]
  · intro e he hr
    rw [lookup_updateResidues history M e he hnodup]
    simp [getRes, hr]

theorem claim_C6_witness :
    (updateResidues histC6 mapC6).map Prod.fst = histC6.map SelectionEntry.id ∧
    (∀ e ∈ histC6, ∀ r : Residue, List.lookup e.id mapC6 = some (some r) →
      List.lookup e.id (updateResidues histC6 mapC6) = some (some r)) ∧
    (∀ e ∈ histC6, List.lookup e.id mapC6 = none →
      List.lookup e.id (updateResidues histC6 mapC6) = some none) :=
  claim_C6_amended histC6 mapC6 (by decide)

/-- Claim C8 counterexample: toggling a code that sits before the end of
the exchange set removes it and re-appends it at the end, so the set's
observable state — its insertion-enumeration order, which the exchange
emission of submitSearch serialises — differs from the state before the
first call, even though membership is restored. -/
theorem claim_C8_counterexample :
    Residue.toggleExchange (Residue.toggleExchange ⟨["ALA", "GLY"]⟩ "ALA") "ALA" ≠
      (⟨["ALA", "GLY"]⟩ : Residue) ∧
    Residue.toggleExchange (Residue.toggleExchange ⟨["ALA", "GLY"]⟩ "ALA") "ALA" =
      (⟨["GLY", "ALA"]⟩ : Residue) := by decide

/-- Claim C8 (amended): a single toggleExchange adds the code if absent
(appending it to the enumeration) and removes it if present (an empty
resulting set is permitted); toggling twice with the same code restores
the membership of the exchange set, and restores its exact state whenever
the code was absent before the first call — when it was present, the code
may move to the end of the enumeration order. -/
theorem claim_C8_amended (r : Residue) (v : String) :
    (∀ w : String,
      w ∈ (Residue.toggleExchange (Residue.toggleExchange r v) v).exchanges ↔
        w ∈ r.exchanges) ∧
    (r.hasExchange v = false →
      Residue.toggleExchange (Residue.toggleExchange r v) v = r) ∧
    (r.hasExchange v = false →
      (Residue.toggleExchange r v).exchanges = r.exchanges ++ [v]) ∧
    (r.hasExchange v = true →
      ∀ w : String, w ∈ (Residue.toggleExchange r v).exchanges ↔
        (w ∈ r.exchanges ∧ w ≠ v)) := by
  obtain ⟨l⟩ := r
  by_cases hv : v ∈ l
  · have hhas : Residue.hasExchange ⟨l⟩ v = true := by
      simp [Residue.hasExchange, hv]
    have h1 : Residue.toggleExchange ⟨l⟩ v = ⟨l.filter (fun w => w != v)⟩ := by
      rw [Residue.toggleExchange, if_pos (by rw [hhas])]
    have hnot : Residue.hasExchange ⟨l.filter (fun w => w != v)⟩ v = false := by
      simp [Residue.hasExchange, List.mem_filter]
    have h2 : Residue.toggleExchange ⟨l.filter (fun w => w != v)⟩ v =
        ⟨l.filter (fun w => w != v) ++ [v]⟩ := by
      rw [Residue.toggleExchange, if_neg (by rw [hnot]; exact Bool.false_ne_true)]
    refine ⟨?_, ?_, ?_, ?_⟩
    · intro w
      rw [h1, h2]
      simp only [List.mem_append, List.mem_filter, List.mem_singleton, bne_iff_ne, ne_eq]
      constructor
      · rintro (⟨hw, -⟩ | rfl)
        · exact hw
        · exact hv
      · intro hw
        by_cases hwv : w = v
        · exact Or.inr hwv
        · exact Or.inl ⟨hw, hwv⟩
    · intro hfalse
      rw [hhas] at hfalse
      exact Bool.noConfusion hfalse
    · intro hfalse
      rw [hhas] at hfalse
      exact Bool.noConfusion hfalse
    · intro _ w
      rw [h1]
      simp [List.mem_filter]
  · have hhas : Residue.hasExchange ⟨l⟩ v = false := by
      simp [Residue.hasExchange, hv]
    have h1 : Residue.toggleExchange ⟨l⟩ v = ⟨l ++ [v]⟩ := by
      rw [Residue.toggleExchange, if_neg (by rw [hhas]; exact Bool.false_ne_true)]
    have hhas2 : Residue.hasExchange ⟨l ++ [v]⟩ v = true := by
      simp [Residue.hasExchange]
    have h2 : Residue.toggleExchange ⟨l ++ [v]⟩ v = ⟨l⟩ := by
      rw [Residue.toggleExchange, if_pos (by rw [hhas2])]
      have hfil : (l ++ [v]).filter (fun w => w != v) = l := by
        rw [List.filter_append]
        have hl : l.filter (fun w => w != v) = l :=
          List.filter_eq_self.mpr (fun a ha => by
            simp only [bne_iff_ne, ne_eq, decide_eq_true_eq]
            exact fun h => hv (h ▸ ha))
        have hr : ([v] : List String).filter (fun w => w != v) = [] := by simp
        rw [hl, hr, List.append_nil]
      rw [hfil]
    refine ⟨?_, ?_, ?_, ?_⟩
    · intro w
      rw [h1, h2]
    · intro _
      rw [h1, h2]
    · intro _
      rw [h1]
    · intro htrue
      rw [hhas] at htrue
      exact absurd htrue Bool.false_ne_true

theorem claim_C8_witness :
    (∀ w : String,
      w ∈ (Residue.toggleExchange (Residue.toggleExchange ⟨["ALA"]⟩ "GLY") "GLY").exchanges ↔
        w ∈ (⟨["ALA"]⟩ : Residue).exchanges) ∧
    ((⟨["ALA"]⟩ : Residue).hasExchange "GLY" = false →
      Residue.toggleExchange (Residue.toggleExchange ⟨["ALA"]⟩ "GLY") "GLY" = ⟨["ALA"]⟩) ∧
    ((⟨["ALA"]⟩ : Residue).hasExchange "GLY" = false →
      (Residue.toggleExchange ⟨["ALA"]⟩ "GLY").exchanges = ["ALA"] ++ ["GLY"]) ∧
    ((⟨["ALA"]⟩ : Residue).hasExchange "GLY" = true →
      ∀ w : String, w ∈ (Residue.toggleExchange ⟨["ALA"]⟩ "GLY").exchanges ↔
        (w ∈ (⟨["ALA"]⟩ : Residue).exchanges ∧ w ≠ "GLY")) :=
  claim_C8_amended ⟨["ALA"]⟩ "GLY"

theorem addLoop_preserve (l : List SelectionEntry) (M M2 : ResidueMap)
    (k : Nat) (v : Option Residue)
    (hlook : List.lookup k M = some v)
    (hrun : l.foldlM addStep M = some M2) :
    List.lookup k M2 = some v := by
  induction l generalizing M with
  | nil =>
    simp only [List.foldlM_nil] at hrun
    injection hrun with hrun
    rw [← hrun]
    exact hlook
  | cons e t ih =>
    rw [List.foldlM_cons] at hrun
    cases haddStep : addStep M e with
    | none =>
      rw [haddStep] at hrun
      exact Option.noConfusion hrun
    | some M1 =>
      rw [haddStep] at hrun
      simp only [Option.bind_eq_bind, Option.some_bind] at hrun
      unfold addStep at haddStep
      by_cases hkey : (List.lookup e.id M).isSome
      · rw [if_pos hkey] at haddStep
        injection haddStep with haddStep
        rw [← haddStep] at hrun
        exact ih M hlook hrun
      · rw [if_neg hkey] at haddStep
        cases hres : resolveLoc e with
        | none =>
          rw [hres] at haddStep
          exact Option.noConfusion haddStep
        | some a =>
          rw [hres] at haddStep
          simp only [Option.map_some', Option.some.injEq] at haddStep
          rw [← haddStep] at hrun
          refine ih _ ?_ hrun
          rw [List.lookup_append, hlook]
          rfl

theorem addLoop_fresh (l : List SelectionEntry) (M M2 : ResidueMap)
    (e : SelectionEntry) (a : Atom)
    (hmem : e ∈ l) (hnodup : (l.map SelectionEntry.id).Nodup)
    (hkey : List.lookup e.id M = none)
    (hres : resolveLoc e = some a)
    (hrun : l.foldlM addStep M = some M2) :
    List.lookup e.id M2 = some (some (mkResidue a)) := by
  induction l generalizing M with
  | nil => simp at hmem
  | cons x t ih =>
    rw [List.map_cons, List.nodup_cons] at hnodup
    rw [List.foldlM_cons] at hrun
    cases haddStep : addStep M x with
    | none =>
      rw [haddStep] at hrun
      exact Option.noConfusion hrun
    | some M1 =>
      rw [haddStep] at hrun
      simp only [Option.bind_eq_bind, Option.some_bind] at hrun
      rcases List.mem_cons.mp hmem with rfl | hmt
      · unfold addStep at haddStep
        rw [hkey] at haddStep
        rw [if_neg (by simp)] at haddStep
        rw [hres] at haddStep
        simp only [Option.map_some', Option.some.injEq] at haddStep
        refine addLoop_preserve t M1 M2 e.id (some (mkResidue a)) ?_ hrun
        rw [← haddStep, List.lookup_append, hkey, List.lookup_cons]
        simp
      · have hne : e.id ≠ x.id := by
          intro hid
          exact hnodup.1 (List.mem_map.mpr ⟨e, hmt, hid⟩)
        have hkey1 : List.lookup e.id M1 = none := by
          unfold addStep at haddStep
          by_cases hkx : (List.lookup x.id M).isSome
          · rw [if_pos hkx] at haddStep
            injection haddStep with haddStep
            rw [← haddStep]
            exact hkey
          · rw [if_neg hkx] at haddStep
            cases hrx : resolveLoc x with
            | none =>
              rw [hrx] at haddStep
              exact Option.noConfusion haddStep
            | some ax =>
              rw [hrx] at haddStep
              simp only [Option.map_some', Option.some.injEq] at haddStep
              rw [← haddStep, List.lookup_append, hkey, List.lookup_cons]
              have hbeq : (e.id == x.id) = false := by simp [hne]
              rw [hbeq]
              rfl
        exact ih M1 hmt hnodup.2 hkey1 hrun

/-- Claim C9: a newly constructed PickedResidue carries an exchange set
equal to the singleton of the native residue type resolved from the first
index of the first element of the entry's locus; in particular, after the
entry's key is dropped by updateResidues (removal from history), any
residue re-tracked for the same identity by the add loop is freshly seeded
— it never resurrects the exchange set of the previously removed
PickedResidue, whatever that set was. -/
theorem claim_C9 (M : ResidueMap) (hist1 hist2 : List SelectionEntry)
    (e : SelectionEntry) (a : Atom) (r : Residue) (M2 : ResidueMap)
    (_hold : List.lookup e.id M = some (some r))
    (hgone : e.id ∉ hist1.map SelectionEntry.id)
    (hnodup : ((hist2.take (min hist2.length 10)).map SelectionEntry.id).Nodup)
    (hmem : e ∈ hist2.take (min hist2.length 10))
    (hres : resolveLoc e = some a)
    (hrun : addLoop hist2 (updateResidues hist1 M) = some M2) :
    List.lookup e.id M2 = some (some (Residue.mk [a.label_comp_id])) := by
  unfold addLoop at hrun
  have hdropped : List.lookup e.id (updateResidues hist1 M) = none :=
    lookup_updateResidues_not_mem hist1 M e.id hgone
  exact addLoop_fresh _ _ M2 e a hmem hnodup hdropped hres hrun

theorem claim_C9_witness :
    List.lookup entC9.id [(5, some (⟨["ALA"]⟩ : Residue))] =
      some (some (Residue.mk ["ALA"])) :=
  claim_C9 mapC9 [] [entC9] entC9 ⟨"A", ["1"], 4, "ALA"⟩ ⟨["XXX", "YYY"]⟩
    [(5, some ⟨["ALA"]⟩)] (by decide) (by decide) (by decide) (by decide)
    (by decide) (by decide)

theorem claim_C1_witness :
    ∃ q : Query, submitSearch lociC1 mapC1 = some (SubmitResult.submitted q) ∧
      q.residue_ids.length = lociC1.length ∧
      q.residue_ids.Perm (lociC1.filterMap selOf) ∧
      List.Sorted lexLE q.residue_ids :=
  claim_C1 lociC1 mapC1 (by decide) (by decide) (by decide) (by decide)
    (by decide) (by decide)

theorem claim_C2_witness :
    submitSearch lociC2 mapC2 = some SubmitResult.multiModelWarning :=
  claim_C2 lociC2 mapC2 (by decide) (by decide) (by decide)

theorem claim_C3_witness :
    submitSearch lociC3 mapC3 = some SubmitResult.nonPolymericWarning :=
  claim_C3 lociC3 mapC3 (by decide) (by decide) (by decide) (by decide)

theorem claim_C4_witness :
    considered lociC4 = lociC4.take MAX_MOTIF_SIZE ∧
    ∃ q : Query, submitSearch lociC4 mapC4 = some (SubmitResult.submitted q) ∧
      q.residue_ids.length = MAX_MOTIF_SIZE ∧
      q.residue_ids.Perm ((lociC4.take MAX_MOTIF_SIZE).filterMap selOf) :=
  claim_C4 lociC4 mapC4 (by decide) (by decide) (by decide) (by decide)
    (by decide)

theorem claim_C7_witness :
    ∃ q : Query, submitSearch lociC7 mapC7 = some (SubmitResult.submitted q) ∧
      q.exchanges = (considered lociC7).filterMap (exOf mapC7) ∧
      ∀ x ∈ q.exchanges, x.allowed ≠ [] :=
  claim_C7 lociC7 mapC7 (by decide) (by decide) (by decide) (by decide)

theorem claim_C10_witness :
    (∃ q : Query, submitSearch [] [] = some (SubmitResult.submitted q) ∧
      (([] : List SelectionEntry) = [] → q.data = none ∧ q.residue_ids = [])) ∧
    (submitDisabled (List.length ([] : List SelectionEntry)) = true ↔
      List.length ([] : List SelectionEntry) < MIN_MOTIF_SIZE) :=
  claim_C10 [] [] (by decide) (by decide) (by decide) (by decide)

/-- Sanity evaluation of the example of spec §8: picks A(chain A, op 1,
seq 5), B(chain A, op 1, seq 2), C(chain B, op 1, seq 1) in order A, B, C
yield sorted residue selectors B, A, C, while exchanges keep pick order. -/
theorem submitSearch_spec_example :
    submitSearch lociC1 mapC1 =
    some (SubmitResult.submitted
      { data := some "1ABC"
        residue_ids := [⟨"A", "1", 2⟩, ⟨"A", "1", 5⟩, ⟨"B", "1", 1⟩]
        score_cutoff := 0
        exchanges := [⟨⟨"A", "1", 5⟩, ["ALA"]⟩, ⟨⟨"A", "1", 2⟩, ["GLY"]⟩,
          ⟨⟨"B", "1", 1⟩, ["SER"]⟩] }) := by decide
